import Mathlib

/-!
Shallow embedding of the DMRG sweep orchestrator `DMRGWorker` from
`itensor/dmrg.h`, together with theorems about its control flow.

The worker is embedded as a pure function that, given the chain length
`N`, the sweep schedule, the external collaborators (iterative
eigensolver, truncating bond decomposition, observer) abstracted as
deterministic oracles, the caller-supplied option set and the initial
disk-paging flags, returns the final worker state and the full ordered
trace of collaborator calls that the C++ code performs.

Numeric `Real` values of the C++ code are modelled as `ℚ`; the initial
`NAN` energy is modelled as `Option.none`.  The `OptSet` class of the
C++ library is modelled as an association list where `add` prepends
(so the newest binding shadows older ones, matching the override
semantics of `OptSet::add`).
-/

/-- Values storable in an option set (`Opt` in the C++ library): booleans,
integers, reals (modelled as `ℚ`), and strings. -/
inductive OptVal where
  | boolV (b : Bool)
  | intV (i : Int)
  | ratV (q : ℚ)
  | strV (s : String)
  deriving DecidableEq, Repr

/-- An option set: an association list from option names to values. -/
abbrev OptSet := List (String × OptVal)

/-- Embeds `OptSet::add`: the new binding shadows any older binding. -/
def optAdd (o : OptSet) (k : String) (v : OptVal) : OptSet := (k, v) :: o

/-- Looks up the newest binding of a name, if any. -/
def optLookup : OptSet → String → Option OptVal
  | [], _ => none
  | (k, v) :: rest, n => if k = n then some v else optLookup rest n

/-- Embeds `OptSet::defined`. -/
def optDefined (o : OptSet) (k : String) : Bool := (optLookup o k).isSome

/-- Embeds `OptSet::getBool(name, default)`. -/
def optGetBool (o : OptSet) (k : String) (d : Bool) : Bool :=
  match optLookup o k with
  | some (OptVal.boolV b) => b
  | _ => d

/-- Embeds `OptSet::getInt(name, default)`. -/
def optGetInt (o : OptSet) (k : String) (d : Int) : Int :=
  match optLookup o k with
  | some (OptVal.intV i) => i
  | _ => d

/-- The sweep schedule (the `Sweeps` class): a sweep count and per-sweep
accessors for cutoff, minm, maxm, noise and the Davidson iteration count,
mirroring `sweeps.cutoff(sw)`, `sweeps.minm(sw)`, `sweeps.maxm(sw)`,
`sweeps.noise(sw)`, `sweeps.niter(sw)` and `sweeps.nsweep()`. -/
structure Sweeps where
  nsweep : Nat
  cutoff : Nat → ℚ
  minm : Nat → Int
  maxm : Nat → Int
  noise : Nat → ℚ
  niter : Nat → Int

/-- The external collaborators of `DMRGWorker`, abstracted as deterministic
oracles indexed by the visit coordinates `(sweep, halfSweep, bond)`:
`dav` is the eigenvalue returned by `davidson(PH, phi, opts)`, `truncR`
is the truncation statistic produced by the commit `psi.svdBond(...)`
(readable afterwards via `psi.spectrum(b)`), and `done` is the value
`obs.checkDone(opts)` returns after the given sweep.  A deterministic
run of the C++ code induces exactly such functions. -/
structure Collab where
  dav : Nat → Nat → Nat → ℚ
  truncR : Nat → Nat → Nat → ℚ
  done : Nat → Bool

/-- Factorization direction passed to `psi.svdBond`. -/
inductive Direction where
  | Fromleft
  | Fromright
  deriving DecidableEq, Repr

/-- One observable collaborator call of `DMRGWorker`, in the order the
C++ code performs them. -/
inductive Event where
  | psiPosition (i : Nat)
  | phPosition (b : Nat)
  | contractAA (b : Nat)
  | davidsonCall (b : Nat) (o : OptSet)
  | svdBondCall (b : Nat) (dir : Direction) (o : OptSet) (report : ℚ)
  | measureCall (o : OptSet)
  | psiDoWrite (v : Bool)
  | phDoWrite (v : Bool)
  | checkDoneCall (o : OptSet) (res : Bool)
  | normalizeCall
  deriving DecidableEq, Repr

/-- The mutable local state of `DMRGWorker`: the threaded option set
`opts`, the `energy` variable (`none` models the initial `NAN`), and the
disk-paging flags of the chain `psi` and the effective operator `PH`. -/
structure WSt where
  opts : OptSet
  energy : Option ℚ
  psiW : Bool
  phW : Bool
  deriving DecidableEq, Repr

/-- The body of the bond loop of `DMRGWorker` (dmrg.h lines 240-266) at
bond `bh.1`, half-sweep `bh.2`, during sweep `sw`: call
`PH.position(b,psi)`, build `phi = psi.A(b)*psi.A(b+1)`, call
`energy = davidson(PH,phi,opts)`, call
`psi.svdBond(b,phi,(ha==1?Fromleft:Fromright),PH,opts)`, add
`AtBond`/`HalfSweep`/`Energy` to `opts` and call `obs.measure(opts)`. -/
def doBond (c : Collab) (sw : Nat) (bh : Nat × Nat) (st : WSt) : WSt × List Event :=
  let b := bh.1
  let ha := bh.2
  let o := st.opts
  let e := c.dav sw ha b
  let dir := if ha = 1 then Direction.Fromleft else Direction.Fromright
  let o2 := optAdd (optAdd (optAdd o "AtBond" (OptVal.intV b))
    "HalfSweep" (OptVal.intV ha)) "Energy" (OptVal.ratV e)
  (⟨o2, some e, st.psiW, st.phW⟩,
   [Event.phPosition b, Event.contractAA b, Event.davidsonCall b o,
    Event.svdBondCall b dir o (c.truncR sw ha b), Event.measureCall o2])

/-- The bond loop of `DMRGWorker` over a list of (bond, half-sweep)
visits, threading the worker state and concatenating the traces. -/
def bondLoop (c : Collab) (sw : Nat) : List (Nat × Nat) → WSt → WSt × List Event
  | [], st => (st, [])
  | bh :: rest, st =>
    let p1 := doBond c sw bh st
    let p2 := bondLoop c sw rest p1.1
    (p2.1, p1.2 ++ p2.2)

/-- The per-sweep option additions of `DMRGWorker` (dmrg.h lines 209-214):
`Sweep`, `Cutoff`, `Minm`, `Maxm`, `Noise`, `MaxIter` from the schedule. -/
def addSweepOpts (s : Sweeps) (sw : Nat) (o : OptSet) : OptSet :=
  optAdd (optAdd (optAdd (optAdd (optAdd (optAdd o
    "Sweep" (OptVal.intV sw))
    "Cutoff" (OptVal.ratV (s.cutoff sw)))
    "Minm" (OptVal.intV (s.minm sw)))
    "Maxm" (OptVal.intV (s.maxm sw)))
    "Noise" (OptVal.ratV (s.noise sw)))
    "MaxIter" (OptVal.intV (s.niter sw))

/-- The disk-paging switch condition of `DMRGWorker` (dmrg.h lines
216-218): `!PH.doWrite() && opts.defined("WriteM") &&
sweeps.maxm(sw) >= opts.getInt("WriteM")`. -/
def writeCond (s : Sweeps) (sw : Nat) (phW : Bool) (o : OptSet) : Bool :=
  !phW && optDefined o "WriteM" && decide (optGetInt o "WriteM" 0 ≤ s.maxm sw)

/-- The preamble of one sweep iteration (dmrg.h lines 209-230): add the
per-sweep schedule options, then, when `writeCond` holds, call
`psi.doWrite(true)` and `PH.doWrite(true)`.  (Progress printing, which
also reads `WriteDir`, has no modelled effect.) -/
def sweepPreamble (s : Sweeps) (sw : Nat) (st : WSt) : WSt × List Event :=
  let o := addSweepOpts s sw st.opts
  if writeCond s sw st.phW o then
    (⟨o, st.energy, true, true⟩, [Event.psiDoWrite true, Event.phDoWrite true])
  else
    (⟨o, st.energy, st.psiW, st.phW⟩, [])

/-- Modelled from the spec: the traversal order produced by
`sweepnext(b,ha,N)` from sweeps.h, whose body is not part of this
source.  The spec states the traversal of one sweep is serpentine:
forward through bonds `1..N-1` (half-sweep 1), then backward through
bonds `N-1..1` (half-sweep 2). -/
def serpentine (N : Nat) : List (Nat × Nat) :=
  (List.range' 1 (N - 1)).map (fun b => (b, 1)) ++
    ((List.range' 1 (N - 1)).reverse.map (fun b => (b, 2)))

/-- One full sweep iteration of the outer loop of `DMRGWorker` (dmrg.h
lines 207-270): the preamble, the bond loop over the serpentine order,
and the `obs.checkDone(opts)` query. -/
def doSweep (c : Collab) (s : Sweeps) (N sw : Nat) (st : WSt) : WSt × List Event :=
  let p1 := sweepPreamble s sw st
  let p2 := bondLoop c sw (serpentine N) p1.1
  (p2.1, p1.2 ++ p2.2 ++ [Event.checkDoneCall p2.1.opts (c.done sw)])

/-- The outer sweep loop of `DMRGWorker` over the remaining sweep
numbers: run one sweep, then break out when `obs.checkDone` returned
true, else continue with the rest of the schedule. -/
def sweepLoop (c : Collab) (s : Sweeps) (N : Nat) : List Nat → WSt → WSt × List Event
  | [], st => (st, [])
  | sw :: rest, st =>
    let p1 := doSweep c s N sw st
    if c.done sw then p1
    else
      let p2 := sweepLoop c s N rest p1.1
      (p2.1, p1.2 ++ p2.2)

/-- Embedding of `DMRGWorker(psi, PH, sweeps, obs, opts)` (dmrg.h lines
188-277).  Returns the final worker state (whose `energy` field is the
returned energy, `none` for the initial `NAN`) and the trace of
collaborator calls: `psi.position(1)`, the sweeps `1..sweeps.nsweep()`
(stopping early when the observer reports convergence), and the final
`psi.normalize()`. -/
def DMRGWorker (N : Nat) (s : Sweeps) (c : Collab) (opts0 : OptSet)
    (psiW0 phW0 : Bool) : WSt × List Event :=
  let quiet := optGetBool opts0 "Quiet" false
  let dl := optGetInt opts0 "DebugLevel" (if quiet then 0 else 1)
  let o1 := optAdd (optAdd opts0 "DebugLevel" (OptVal.intV dl))
    "DoNormalize" (OptVal.boolV true)
  let st0 : WSt := ⟨o1, none, psiW0, phW0⟩
  let p := sweepLoop c s N (List.range' 1 s.nsweep) st0
  (p.1, Event.psiPosition 1 :: (p.2 ++ [Event.normalizeCall]))

/-- The call trace of a `DMRGWorker` run. -/
def runTrace (N : Nat) (s : Sweeps) (c : Collab) (opts0 : OptSet)
    (psiW0 phW0 : Bool) : List Event :=
  (DMRGWorker N s c opts0 psiW0 phW0).2

/-- The energy value a `DMRGWorker` run returns (`none` models `NAN`). -/
def runEnergy (N : Nat) (s : Sweeps) (c : Collab) (opts0 : OptSet)
    (psiW0 phW0 : Bool) : Option ℚ :=
  (DMRGWorker N s c opts0 psiW0 phW0).1.energy

/-- The sweep numbers the outer loop actually executes from a given list
of scheduled sweeps: all of them up to and including the first one after
which the observer reports convergence. -/
def executedList (c : Collab) : List Nat → List Nat
  | [] => []
  | sw :: rest => if c.done sw then [sw] else sw :: executedList c rest

/-- The number of full sweeps a run performs. -/
def executedSweeps (s : Sweeps) (c : Collab) : Nat :=
  (executedList c (List.range' 1 s.nsweep)).length

/-- The list of events a single bond visit emits (the right component of
`doBond`), as an explicit function of the option set in force. -/
def bondEvents (c : Collab) (sw b ha : Nat) (o : OptSet) : List Event :=
  [Event.phPosition b, Event.contractAA b, Event.davidsonCall b o,
   Event.svdBondCall b (if ha = 1 then Direction.Fromleft else Direction.Fromright)
     o (c.truncR sw ha b),
   Event.measureCall (optAdd (optAdd (optAdd o "AtBond" (OptVal.intV b))
     "HalfSweep" (OptVal.intV ha)) "Energy" (OptVal.ratV (c.dav sw ha b)))]

/-- The option set threaded to `psi.svdBond` always maps `DoNormalize`
to `true` (dmrg.h line 205). -/
def dnInv (o : OptSet) : Prop :=
  optLookup o "DoNormalize" = some (OptVal.boolV true)

/-- The option set in force during sweep `sw` carries exactly the
schedule parameters of sweep `sw` (dmrg.h lines 209-214). -/
def schedInv (s : Sweeps) (sw : Nat) (o : OptSet) : Prop :=
  optLookup o "Sweep" = some (OptVal.intV sw) ∧
  optLookup o "Cutoff" = some (OptVal.ratV (s.cutoff sw)) ∧
  optLookup o "Minm" = some (OptVal.intV (s.minm sw)) ∧
  optLookup o "Maxm" = some (OptVal.intV (s.maxm sw)) ∧
  optLookup o "Noise" = some (OptVal.ratV (s.noise sw)) ∧
  optLookup o "MaxIter" = some (OptVal.intV (s.niter sw))

/-- The context handed to `obs.measure` holds the sweep number, the bond,
the half-sweep, the energy just computed by the eigensolver, and the
schedule parameters of the sweep named in it. -/
def measureCtxOk (s : Sweeps) (c : Collab) (ctx : OptSet) : Prop :=
  ∃ sw b ha : Nat,
    optLookup ctx "Sweep" = some (OptVal.intV sw) ∧
    optLookup ctx "AtBond" = some (OptVal.intV b) ∧
    optLookup ctx "HalfSweep" = some (OptVal.intV ha) ∧
    optLookup ctx "Energy" = some (OptVal.ratV (c.dav sw ha b)) ∧
    optLookup ctx "Cutoff" = some (OptVal.ratV (s.cutoff sw)) ∧
    optLookup ctx "Minm" = some (OptVal.intV (s.minm sw)) ∧
    optLookup ctx "Maxm" = some (OptVal.intV (s.maxm sw)) ∧
    optLookup ctx "Noise" = some (OptVal.ratV (s.noise sw)) ∧
    optLookup ctx "MaxIter" = some (OptVal.intV (s.niter sw))

/-- Classifies the events a bond visit can emit. -/
def bondEventB : Event → Bool
  | Event.phPosition _ => true
  | Event.contractAA _ => true
  | Event.davidsonCall _ _ => true
  | Event.svdBondCall _ _ _ _ => true
  | Event.measureCall _ => true
  | _ => false

/-- Classifies bond-commit events. -/
def isSvdB : Event → Bool
  | Event.svdBondCall _ _ _ _ => true
  | _ => false

/-- Classifies observer convergence queries. -/
def isCheckB : Event → Bool
  | Event.checkDoneCall _ _ => true
  | _ => false

/-- Number of bond commits (`psi.svdBond` calls) in a trace. -/
def countSvd (tr : List Event) : Nat := tr.countP isSvdB

/-- Number of `obs.checkDone` queries in a trace. -/
def countCheckDone (tr : List Event) : Nat := tr.countP isCheckB

/-- Projects a bond-commit event to its (bond, half-sweep) coordinates,
recovering the half-sweep from the factorization direction. -/
def bondVisitOf : Event → Option (Nat × Nat)
  | Event.svdBondCall b dir _ _ =>
      some (b, if dir = Direction.Fromleft then 1 else 2)
  | _ => none

/-- The sequence of (bond, half-sweep) coordinates of the bond commits
of a trace, in order. -/
def bondVisits (tr : List Event) : List (Nat × Nat) := tr.filterMap bondVisitOf

/-- Projects a trace onto its bond commits (tagged `some (b, ha)`) and
observer convergence queries (tagged `none`), preserving order. -/
def visitOrCheck : Event → Option (Option (Nat × Nat))
  | Event.svdBondCall b dir _ _ =>
      some (some (b, if dir = Direction.Fromleft then 1 else 2))
  | Event.checkDoneCall _ _ => some none
  | _ => none

/-- The interleaving of bond commits and convergence queries of a trace. -/
def svdCheckSeq (tr : List Event) : List (Option (Nat × Nat)) :=
  tr.filterMap visitOrCheck

theorem optLookup_add (o : OptSet) (k : String) (v : OptVal) (n : String) :
    optLookup (optAdd o k v) n = if k = n then some v else optLookup o n := rfl

theorem doBond_trace (c : Collab) (sw : Nat) (b ha : Nat) (st : WSt) :
    (doBond c sw (b, ha) st).2 = bondEvents c sw b ha st.opts := rfl

theorem doBond_opts (c : Collab) (sw : Nat) (bh : Nat × Nat) (st : WSt) :
    (doBond c sw bh st).1.opts =
      optAdd (optAdd (optAdd st.opts "AtBond" (OptVal.intV bh.1))
        "HalfSweep" (OptVal.intV bh.2)) "Energy" (OptVal.ratV (c.dav sw bh.2 bh.1)) := rfl

theorem doBond_psiW (c : Collab) (sw : Nat) (bh : Nat × Nat) (st : WSt) :
    (doBond c sw bh st).1.psiW = st.psiW := rfl

theorem doBond_phW (c : Collab) (sw : Nat) (bh : Nat × Nat) (st : WSt) :
    (doBond c sw bh st).1.phW = st.phW := rfl

theorem bondLoop_nil (c : Collab) (sw : Nat) (st : WSt) :
    bondLoop c sw [] st = (st, []) := rfl

theorem bondLoop_cons (c : Collab) (sw : Nat) (bh : Nat × Nat)
    (L : List (Nat × Nat)) (st : WSt) :
    bondLoop c sw (bh :: L) st =
      ((bondLoop c sw L (doBond c sw bh st).1).1,
        (doBond c sw bh st).2 ++ (bondLoop c sw L (doBond c sw bh st).1).2) := rfl

theorem sweepPreamble_opts (s : Sweeps) (sw : Nat) (st : WSt) :
    (sweepPreamble s sw st).1.opts = addSweepOpts s sw st.opts := by
  by_cases h : writeCond s sw st.phW (addSweepOpts s sw st.opts) <;>
    simp [sweepPreamble, h]

theorem doSweep_trace (c : Collab) (s : Sweeps) (N sw : Nat) (st : WSt) :
    (doSweep c s N sw st).2 =
      (sweepPreamble s sw st).2 ++
        (bondLoop c sw (serpentine N) (sweepPreamble s sw st).1).2 ++
        [Event.checkDoneCall (bondLoop c sw (serpentine N) (sweepPreamble s sw st).1).1.opts
          (c.done sw)] := rfl

theorem sweepLoop_nil (c : Collab) (s : Sweeps) (N : Nat) (st : WSt) :
    sweepLoop c s N [] st = (st, []) := rfl

theorem sweepLoop_cons (c : Collab) (s : Sweeps) (N sw : Nat)
    (L : List Nat) (st : WSt) :
    sweepLoop c s N (sw :: L) st =
      if c.done sw then doSweep c s N sw st
      else
        ((sweepLoop c s N L (doSweep c s N sw st).1).1,
          (doSweep c s N sw st).2 ++ (sweepLoop c s N L (doSweep c s N sw st).1).2) := by
  simp only [sweepLoop]

theorem dnInv_addSweepOpts (s : Sweeps) (sw : Nat) (o : OptSet) (h : dnInv o) :
    dnInv (addSweepOpts s sw o) := by
  simpa [addSweepOpts, dnInv, optAdd, optLookup] using h

theorem dnInv_doBond (c : Collab) (sw : Nat) (bh : Nat × Nat) (st : WSt)
    (h : dnInv st.opts) : dnInv (doBond c sw bh st).1.opts := by
  simpa [doBond_opts, dnInv, optAdd, optLookup] using h

theorem dnInv_bondLoop (c : Collab) (sw : Nat) (L : List (Nat × Nat)) :
    ∀ st : WSt, dnInv st.opts → dnInv (bondLoop c sw L st).1.opts := by
  induction L with
  | nil => intro st h; exact h
  | cons bh L ih =>
      intro st h
      rw [bondLoop_cons]
      exact ih _ (dnInv_doBond c sw bh st h)

theorem schedInv_addSweepOpts (s : Sweeps) (sw : Nat) (o : OptSet) :
    schedInv s sw (addSweepOpts s sw o) := by
  refine ⟨?_, ?_, ?_, ?_, ?_, ?_⟩ <;> simp [addSweepOpts, optAdd, optLookup]

theorem schedInv_doBond (s : Sweeps) (c : Collab) (sw : Nat) (bh : Nat × Nat)
    (st : WSt) (h : schedInv s sw st.opts) : schedInv s sw (doBond c sw bh st).1.opts := by
  obtain ⟨h1, h2, h3, h4, h5, h6⟩ := h
  refine ⟨?_, ?_, ?_, ?_, ?_, ?_⟩ <;>
    simp [doBond_opts, optAdd, optLookup, h1, h2, h3, h4, h5, h6]

theorem schedInv_bondLoop (s : Sweeps) (c : Collab) (sw : Nat) (L : List (Nat × Nat)) :
    ∀ st : WSt, schedInv s sw st.opts → schedInv s sw (bondLoop c sw L st).1.opts := by
  induction L with
  | nil => intro st h; exact h
  | cons bh L ih =>
      intro st h
      rw [bondLoop_cons]
      exact ih _ (schedInv_doBond s c sw bh st h)

theorem bondLoop_psiW (c : Collab) (sw : Nat) (L : List (Nat × Nat)) :
    ∀ st : WSt, (bondLoop c sw L st).1.psiW = st.psiW := by
  induction L with
  | nil => intro st; rfl
  | cons bh L ih => intro st; rw [bondLoop_cons]; exact (ih _).trans (doBond_psiW c sw bh st)

theorem bondLoop_phW (c : Collab) (sw : Nat) (L : List (Nat × Nat)) :
    ∀ st : WSt, (bondLoop c sw L st).1.phW = st.phW := by
  induction L with
  | nil => intro st; rfl
  | cons bh L ih => intro st; rw [bondLoop_cons]; exact (ih _).trans (doBond_phW c sw bh st)

theorem bondLoop_shape (c : Collab) (sw : Nat) (L : List (Nat × Nat)) :
    ∀ (st : WSt) (e : Event), e ∈ (bondLoop c sw L st).2 → bondEventB e = true := by
  induction L with
  | nil => intro st e h; rw [bondLoop_nil] at h; exact absurd h (List.not_mem_nil e)
  | cons bh L ih =>
      intro st e h
      obtain ⟨b, ha⟩ := bh
      rw [bondLoop_cons] at h
      rcases List.mem_append.mp h with h | h
      · rw [doBond_trace] at h
        simp only [bondEvents, List.mem_cons, List.not_mem_nil, or_false] at h
        rcases h with rfl | rfl | rfl | rfl | rfl <;> rfl
      · exact ih _ e h

theorem sweepPreamble_trace (s : Sweeps) (sw : Nat) (st : WSt) :
    (sweepPreamble s sw st).2 = [] ∨
      (sweepPreamble s sw st).2 = [Event.psiDoWrite true, Event.phDoWrite true] := by
  by_cases h : writeCond s sw st.phW (addSweepOpts s sw st.opts) <;>
    simp [sweepPreamble, h]

theorem countSvd_append (a b : List Event) :
    countSvd (a ++ b) = countSvd a + countSvd b := List.countP_append _ _ _

theorem countCheckDone_append (a b : List Event) :
    countCheckDone (a ++ b) = countCheckDone a + countCheckDone b := List.countP_append _ _ _

theorem countSvd_doBond (c : Collab) (sw : Nat) (bh : Nat × Nat) (st : WSt) :
    countSvd (doBond c sw bh st).2 = 1 := by
  obtain ⟨b, ha⟩ := bh; rfl

theorem countCheckDone_doBond (c : Collab) (sw : Nat) (bh : Nat × Nat) (st : WSt) :
    countCheckDone (doBond c sw bh st).2 = 0 := by
  obtain ⟨b, ha⟩ := bh; rfl

theorem countSvd_bondLoop (c : Collab) (sw : Nat) (L : List (Nat × Nat)) :
    ∀ st : WSt, countSvd (bondLoop c sw L st).2 = L.length := by
  induction L with
  | nil => intro st; rfl
  | cons bh L ih =>
      intro st
      rw [bondLoop_cons]
      show countSvd ((doBond c sw bh st).2 ++ _) = _
      rw [countSvd_append, countSvd_doBond, ih, List.length_cons]
      omega

theorem countCheckDone_bondLoop (c : Collab) (sw : Nat) (L : List (Nat × Nat)) :
    ∀ st : WSt, countCheckDone (bondLoop c sw L st).2 = 0 := by
  induction L with
  | nil => intro st; rfl
  | cons bh L ih =>
      intro st
      rw [bondLoop_cons]
      show countCheckDone ((doBond c sw bh st).2 ++ _) = _
      rw [countCheckDone_append, countCheckDone_doBond, ih]

theorem serpentine_length (N : Nat) : (serpentine N).length = 2 * (N - 1) := by
  simp [serpentine]
  omega

theorem countSvd_doSweep (c : Collab) (s : Sweeps) (N sw : Nat) (st : WSt) :
    countSvd (doSweep c s N sw st).2 = 2 * (N - 1) := by
  rw [doSweep_trace, countSvd_append, countSvd_append, countSvd_bondLoop, serpentine_length]
  have h0 : countSvd ([] : List Event) = 0 := rfl
  have h1 : countSvd [Event.psiDoWrite true, Event.phDoWrite true] = 0 := rfl
  have h2 : ∀ o r, countSvd [Event.checkDoneCall o r] = 0 := fun o r => rfl
  rcases sweepPreamble_trace s sw st with h | h <;> rw [h] <;> simp [h0, h1, h2]

theorem countCheckDone_doSweep (c : Collab) (s : Sweeps) (N sw : Nat) (st : WSt) :
    countCheckDone (doSweep c s N sw st).2 = 1 := by
  rw [doSweep_trace, countCheckDone_append, countCheckDone_append, countCheckDone_bondLoop]
  have h0 : countCheckDone ([] : List Event) = 0 := rfl
  have h1 : countCheckDone [Event.psiDoWrite true, Event.phDoWrite true] = 0 := rfl
  have h2 : ∀ o r, countCheckDone [Event.checkDoneCall o r] = 1 := fun o r => rfl
  rcases sweepPreamble_trace s sw st with h | h <;> rw [h] <;> simp [h0, h1, h2]

theorem countSvd_sweepLoop (c : Collab) (s : Sweeps) (N : Nat) (L : List Nat) :
    ∀ st : WSt, countSvd (sweepLoop c s N L st).2 =
      (executedList c L).length * (2 * (N - 1)) := by
  induction L with
  | nil => intro st; rw [sweepLoop_nil]; simp [executedList, countSvd]
  | cons sw L ih =>
      intro st
      rw [sweepLoop_cons]
      by_cases h : c.done sw
      · simp [h, executedList, countSvd_doSweep]
      · simp only [h, if_false, executedList, Bool.false_eq_true]
        rw [countSvd_append, countSvd_doSweep, ih, List.length_cons]
        ring
  
theorem countCheckDone_sweepLoop (c : Collab) (s : Sweeps) (N : Nat) (L : List Nat) :
    ∀ st : WSt, countCheckDone (sweepLoop c s N L st).2 = (executedList c L).length := by
  induction L with
  | nil => intro st; rfl
  | cons sw L ih =>
      intro st
      rw [sweepLoop_cons]
      by_cases h : c.done sw
      · simp [h, executedList, countCheckDone_doSweep]
      · simp only [h, if_false, executedList, Bool.false_eq_true]
        rw [countCheckDone_append, countCheckDone_doSweep, ih, List.length_cons]
        omega

theorem bondVisits_append (a b : List Event) :
    bondVisits (a ++ b) = bondVisits a ++ bondVisits b := List.filterMap_append ..

theorem svdCheckSeq_append (a b : List Event) :
    svdCheckSeq (a ++ b) = svdCheckSeq a ++ svdCheckSeq b := List.filterMap_append ..

theorem bondVisits_doBond (c : Collab) (sw b ha : Nat) (st : WSt)
    (h : ha = 1 ∨ ha = 2) : bondVisits (doBond c sw (b, ha) st).2 = [(b, ha)] := by
  rcases h with rfl | rfl <;> rfl

theorem svdCheckSeq_doBond (c : Collab) (sw b ha : Nat) (st : WSt)
    (h : ha = 1 ∨ ha = 2) : svdCheckSeq (doBond c sw (b, ha) st).2 = [some (b, ha)] := by
  rcases h with rfl | rfl <;> rfl

theorem serpentine_ha (N : Nat) : ∀ bh ∈ serpentine N, bh.2 = 1 ∨ bh.2 = 2 := by
  intro bh h
  rcases List.mem_append.mp h with h | h <;>
    obtain ⟨b, hb, rfl⟩ := List.mem_map.mp h
  · left; rfl
  · right; rfl

theorem bondVisits_bondLoop (c : Collab) (sw : Nat) (L : List (Nat × Nat)) :
    ∀ st : WSt, (∀ bh ∈ L, bh.2 = 1 ∨ bh.2 = 2) →
      bondVisits (bondLoop c sw L st).2 = L := by
  induction L with
  | nil => intro st _; rfl
  | cons bh L ih =>
      intro st hL
      obtain ⟨b, ha⟩ := bh
      rw [bondLoop_cons]
      show bondVisits ((doBond c sw (b, ha) st).2 ++ _) = _
      rw [bondVisits_append, bondVisits_doBond c sw b ha st (hL (b, ha) (List.mem_cons_self _ _)),
        ih _ (fun x hx => hL x (List.mem_cons_of_mem _ hx))]
      rfl

theorem svdCheckSeq_bondLoop (c : Collab) (sw : Nat) (L : List (Nat × Nat)) :
    ∀ st : WSt, (∀ bh ∈ L, bh.2 = 1 ∨ bh.2 = 2) →
      svdCheckSeq (bondLoop c sw L st).2 = L.map some := by
  induction L with
  | nil => intro st _; rfl
  | cons bh L ih =>
      intro st hL
      obtain ⟨b, ha⟩ := bh
      rw [bondLoop_cons]
      show svdCheckSeq ((doBond c sw (b, ha) st).2 ++ _) = _
      rw [svdCheckSeq_append, svdCheckSeq_doBond c sw b ha st (hL (b, ha) (List.mem_cons_self _ _)),
        ih _ (fun x hx => hL x (List.mem_cons_of_mem _ hx))]
      rfl

theorem bondVisits_doSweep (c : Collab) (s : Sweeps) (N sw : Nat) (st : WSt) :
    bondVisits (doSweep c s N sw st).2 = serpentine N := by
  rw [doSweep_trace, bondVisits_append, bondVisits_append,
    bondVisits_bondLoop c sw (serpentine N) _ (serpentine_ha N)]
  have h0 : bondVisits ([] : List Event) = [] := rfl
  have h1 : bondVisits [Event.psiDoWrite true, Event.phDoWrite true] = [] := rfl
  have h2 : ∀ o r, bondVisits [Event.checkDoneCall o r] = [] := fun o r => rfl
  rcases sweepPreamble_trace s sw st with h | h <;> rw [h] <;> simp [h0, h1, h2]

theorem svdCheckSeq_doSweep (c : Collab) (s : Sweeps) (N sw : Nat) (st : WSt) :
    svdCheckSeq (doSweep c s N sw st).2 = (serpentine N).map some ++ [none] := by
  rw [doSweep_trace, svdCheckSeq_append, svdCheckSeq_append,
    svdCheckSeq_bondLoop c sw (serpentine N) _ (serpentine_ha N)]
  have h0 : svdCheckSeq ([] : List Event) = [] := rfl
  have h1 : svdCheckSeq [Event.psiDoWrite true, Event.phDoWrite true] = [] := rfl
  have h2 : ∀ o r, svdCheckSeq [Event.checkDoneCall o r] = [none] := fun o r => rfl
  rcases sweepPreamble_trace s sw st with h | h <;> rw [h] <;> simp [h0, h1, h2]

theorem bondVisits_sweepLoop (c : Collab) (s : Sweeps) (N : Nat) (L : List Nat) :
    ∀ st : WSt, bondVisits (sweepLoop c s N L st).2 =
      List.flatten (List.replicate (executedList c L).length (serpentine N)) := by
  induction L with
  | nil => intro st; rfl
  | cons sw L ih =>
      intro st
      rw [sweepLoop_cons]
      by_cases h : c.done sw
      · simp [h, executedList, bondVisits_doSweep]
      · simp only [h, if_false, executedList, Bool.false_eq_true]
        rw [bondVisits_append, bondVisits_doSweep, ih, List.length_cons,
          List.replicate_succ, List.flatten_cons]

theorem svdCheckSeq_sweepLoop (c : Collab) (s : Sweeps) (N : Nat) (L : List Nat) :
    ∀ st : WSt, svdCheckSeq (sweepLoop c s N L st).2 =
      List.flatten (List.replicate (executedList c L).length
        ((serpentine N).map some ++ [none])) := by
  induction L with
  | nil => intro st; rfl
  | cons sw L ih =>
      intro st
      rw [sweepLoop_cons]
      by_cases h : c.done sw
      · simp [h, executedList, svdCheckSeq_doSweep]
      · simp only [h, if_false, executedList, Bool.false_eq_true]
        rw [svdCheckSeq_append, svdCheckSeq_doSweep, ih, List.length_cons,
          List.replicate_succ, List.flatten_cons]

theorem svdOpts_bondLoop (c : Collab) (sw : Nat) (L : List (Nat × Nat)) :
    ∀ st : WSt, dnInv st.opts → ∀ (b : Nat) (d : Direction) (o : OptSet) (r : ℚ),
      Event.svdBondCall b d o r ∈ (bondLoop c sw L st).2 → dnInv o := by
  induction L with
  | nil =>
      intro st _ b d o r h
      rw [bondLoop_nil] at h
      exact absurd h (List.not_mem_nil _)
  | cons bh L ih =>
      intro st hdn b d o r h
      obtain ⟨b0, ha0⟩ := bh
      rw [bondLoop_cons] at h
      rcases List.mem_append.mp h with h | h
      · rw [doBond_trace] at h
        simp only [bondEvents, List.mem_cons, List.not_mem_nil, or_false] at h
        rcases h with h | h | h | h | h
        · exact Event.noConfusion h
        · exact Event.noConfusion h
        · exact Event.noConfusion h
        · injection h with h1 h2 h3 h4
          subst h3
          exact hdn
        · exact Event.noConfusion h
      · exact ih _ (dnInv_doBond c sw (b0, ha0) st hdn) b d o r h

theorem measureCtx_bondLoop (s : Sweeps) (c : Collab) (sw : Nat) (L : List (Nat × Nat)) :
    ∀ st : WSt, schedInv s sw st.opts → ∀ ctx : OptSet,
      Event.measureCall ctx ∈ (bondLoop c sw L st).2 → measureCtxOk s c ctx := by
  induction L with
  | nil =>
      intro st _ ctx h
      rw [bondLoop_nil] at h
      exact absurd h (List.not_mem_nil _)
  | cons bh L ih =>
      intro st hs ctx h
      obtain ⟨b0, ha0⟩ := bh
      rw [bondLoop_cons] at h
      rcases List.mem_append.mp h with h | h
      · rw [doBond_trace] at h
        simp only [bondEvents, List.mem_cons, List.not_mem_nil, or_false] at h
        rcases h with h | h | h | h | h
        · exact Event.noConfusion h
        · exact Event.noConfusion h
        · exact Event.noConfusion h
        · exact Event.noConfusion h
        · injection h with h1
          subst h1
          obtain ⟨s1, s2, s3, s4, s5, s6⟩ := hs
          exact ⟨sw, b0, ha0,
            by simp [optAdd, optLookup, s1],
            by simp [optAdd, optLookup],
            by simp [optAdd, optLookup],
            by simp [optAdd, optLookup],
            by simp [optAdd, optLookup, s2],
            by simp [optAdd, optLookup, s3],
            by simp [optAdd, optLookup, s4],
            by simp [optAdd, optLookup, s5],
            by simp [optAdd, optLookup, s6]⟩
      · exact ih _ (schedInv_doBond s c sw (b0, ha0) st hs) ctx h

theorem dnInv_doSweep (c : Collab) (s : Sweeps) (N sw : Nat) (st : WSt)
    (h : dnInv st.opts) : dnInv (doSweep c s N sw st).1.opts := by
  show dnInv (bondLoop c sw (serpentine N) (sweepPreamble s sw st).1).1.opts
  refine dnInv_bondLoop c sw (serpentine N) _ ?_
  rw [sweepPreamble_opts]
  exact dnInv_addSweepOpts s sw st.opts h

theorem svdOpts_doSweep (c : Collab) (s : Sweeps) (N sw : Nat) (st : WSt)
    (hdn : dnInv st.opts) (b : Nat) (d : Direction) (o : OptSet) (r : ℚ)
    (h : Event.svdBondCall b d o r ∈ (doSweep c s N sw st).2) : dnInv o := by
  rw [doSweep_trace] at h
  rcases List.mem_append.mp h with h | h
  · rcases List.mem_append.mp h with h | h
    · rcases sweepPreamble_trace s sw st with hp | hp <;> rw [hp] at h
      · exact absurd h (List.not_mem_nil _)
      · simp only [List.mem_cons, List.not_mem_nil, or_false] at h
        rcases h with h | h
        · exact Event.noConfusion h
        · exact Event.noConfusion h
    · refine svdOpts_bondLoop c sw (serpentine N) _ ?_ b d o r h
      rw [sweepPreamble_opts]
      exact dnInv_addSweepOpts s sw st.opts hdn
  · simp only [List.mem_cons, List.not_mem_nil, or_false] at h
    exact Event.noConfusion h

theorem measureCtx_doSweep (s : Sweeps) (c : Collab) (N sw : Nat) (st : WSt)
    (ctx : OptSet) (h : Event.measureCall ctx ∈ (doSweep c s N sw st).2) :
    measureCtxOk s c ctx := by
  rw [doSweep_trace] at h
  rcases List.mem_append.mp h with h | h
  · rcases List.mem_append.mp h with h | h
    · rcases sweepPreamble_trace s sw st with hp | hp <;> rw [hp] at h
      · exact absurd h (List.not_mem_nil _)
      · simp only [List.mem_cons, List.not_mem_nil, or_false] at h
        rcases h with h | h
        · exact Event.noConfusion h
        · exact Event.noConfusion h
    · refine measureCtx_bondLoop s c sw (serpentine N) _ ?_ ctx h
      rw [sweepPreamble_opts]
      exact schedInv_addSweepOpts s sw st.opts
  · simp only [List.mem_cons, List.not_mem_nil, or_false] at h
    exact Event.noConfusion h

theorem svdOpts_sweepLoop (c : Collab) (s : Sweeps) (N : Nat) (L : List Nat) :
    ∀ st : WSt, dnInv st.opts → ∀ (b : Nat) (d : Direction) (o : OptSet) (r : ℚ),
      Event.svdBondCall b d o r ∈ (sweepLoop c s N L st).2 → dnInv o := by
  induction L with
  | nil =>
      intro st _ b d o r h
      rw [sweepLoop_nil] at h
      exact absurd h (List.not_mem_nil _)
  | cons sw L ih =>
      intro st hdn b d o r h
      rw [sweepLoop_cons] at h
      by_cases hd : c.done sw
      · rw [if_pos hd] at h
        exact svdOpts_doSweep c s N sw st hdn b d o r h
      · rw [if_neg hd] at h
        rcases List.mem_append.mp h with h | h
        · exact svdOpts_doSweep c s N sw st hdn b d o r h
        · exact ih _ (dnInv_doSweep c s N sw st hdn) b d o r h

theorem measureCtx_sweepLoop (s : Sweeps) (c : Collab) (N : Nat) (L : List Nat) :
    ∀ (st : WSt) (ctx : OptSet),
      Event.measureCall ctx ∈ (sweepLoop c s N L st).2 → measureCtxOk s c ctx := by
  induction L with
  | nil =>
      intro st ctx h
      rw [sweepLoop_nil] at h
      exact absurd h (List.not_mem_nil _)
  | cons sw L ih =>
      intro st ctx h
      rw [sweepLoop_cons] at h
      by_cases hd : c.done sw
      · rw [if_pos hd] at h
        exact measureCtx_doSweep s c N sw st ctx h
      · rw [if_neg hd] at h
        rcases List.mem_append.mp h with h | h
        · exact measureCtx_doSweep s c N sw st ctx h
        · exact ih _ ctx h

theorem sweepLoop_shape (c : Collab) (s : Sweeps) (N : Nat) (L : List Nat) :
    ∀ (st : WSt) (e : Event), e ∈ (sweepLoop c s N L st).2 →
      bondEventB e = true ∨ (∃ o r, e = Event.checkDoneCall o r) ∨
        e = Event.psiDoWrite true ∨ e = Event.phDoWrite true := by
  induction L with
  | nil =>
      intro st e h
      rw [sweepLoop_nil] at h
      exact absurd h (List.not_mem_nil _)
  | cons sw L ih =>
      intro st e h
      have hsw : e ∈ (doSweep c s N sw st).2 →
          bondEventB e = true ∨ (∃ o r, e = Event.checkDoneCall o r) ∨
            e = Event.psiDoWrite true ∨ e = Event.phDoWrite true := by
        intro h
        rw [doSweep_trace] at h
        rcases List.mem_append.mp h with h | h
        · rcases List.mem_append.mp h with h | h
          · rcases sweepPreamble_trace s sw st with hp | hp <;> rw [hp] at h
            · exact absurd h (List.not_mem_nil _)
            · simp only [List.mem_cons, List.not_mem_nil, or_false] at h
              rcases h with rfl | rfl
              · exact Or.inr (Or.inr (Or.inl rfl))
              · exact Or.inr (Or.inr (Or.inr rfl))
          · exact Or.inl (bondLoop_shape c sw (serpentine N) _ e h)
        · simp only [List.mem_cons, List.not_mem_nil, or_false] at h
          subst h
          exact Or.inr (Or.inl ⟨_, _, rfl⟩)
      rw [sweepLoop_cons] at h
      by_cases hd : c.done sw
      · rw [if_pos hd] at h
        exact hsw h
      · rw [if_neg hd] at h
        rcases List.mem_append.mp h with h | h
        · exact hsw h
        · exact ih _ e h

/-- The option set `DMRGWorker` sets up before the sweep loop (dmrg.h
lines 196-205): the caller options plus `DebugLevel` and
`DoNormalize = true`. -/
def initOpts (opts0 : OptSet) : OptSet :=
  optAdd (optAdd opts0 "DebugLevel" (OptVal.intV (optGetInt opts0 "DebugLevel"
    (if optGetBool opts0 "Quiet" false then 0 else 1)))) "DoNormalize" (OptVal.boolV true)

theorem DMRGWorker_eq (N : Nat) (s : Sweeps) (c : Collab) (o0 : OptSet)
    (p0 q0 : Bool) :
    DMRGWorker N s c o0 p0 q0 =
      ((sweepLoop c s N (List.range' 1 s.nsweep) ⟨initOpts o0, none, p0, q0⟩).1,
        Event.psiPosition 1 ::
          ((sweepLoop c s N (List.range' 1 s.nsweep) ⟨initOpts o0, none, p0, q0⟩).2 ++
            [Event.normalizeCall])) := rfl

theorem dnInv_initOpts (o0 : OptSet) : dnInv (initOpts o0) := by
  simp [initOpts, dnInv, optAdd, optLookup]

theorem bondLoop_decomp (s : Sweeps) (c : Collab) (sw : Nat) (L : List (Nat × Nat)) :
    ∀ st : WSt, schedInv s sw st.opts → ∀ b ha : Nat, (b, ha) ∈ L →
      ∃ pre post o, (bondLoop c sw L st).2 = pre ++ bondEvents c sw b ha o ++ post ∧
        schedInv s sw o := by
  induction L with
  | nil => intro st _ b ha h; exact absurd h (List.not_mem_nil _)
  | cons bh L ih =>
      intro st hs b ha h
      rw [bondLoop_cons]
      rcases List.mem_cons.mp h with h | h
      · subst h
        refine ⟨[], (bondLoop c sw L (doBond c sw (b, ha) st).1).2, st.opts, ?_, hs⟩
        rw [doBond_trace]
        simp
      · obtain ⟨pre, post, o, heq, hso⟩ :=
          ih (doBond c sw bh st).1 (schedInv_doBond s c sw bh st hs) b ha h
        refine ⟨(doBond c sw bh st).2 ++ pre, post, o, ?_, hso⟩
        show (doBond c sw bh st).2 ++ (bondLoop c sw L (doBond c sw bh st).1).2 = _
        rw [heq]
        simp [List.append_assoc]

theorem sweepLoop_decomp (c : Collab) (s : Sweeps) (N : Nat) (L : List Nat) :
    ∀ st : WSt, dnInv st.opts → ∀ sw : Nat, sw ∈ executedList c L →
      ∃ pre post st1, (sweepLoop c s N L st).2 = pre ++ (doSweep c s N sw st1).2 ++ post ∧
        dnInv st1.opts := by
  induction L with
  | nil =>
      intro st _ sw h
      simp [executedList] at h
  | cons sw0 L ih =>
      intro st hdn sw h
      rw [sweepLoop_cons]
      by_cases hd : c.done sw0
      · rw [if_pos hd]
        have hsw : sw = sw0 := by simpa [executedList, hd] using h
        subst hsw
        exact ⟨[], [], st, by simp, hdn⟩
      · rw [if_neg hd]
        have h' : sw = sw0 ∨ sw ∈ executedList c L := by
          simpa [executedList, hd] using h
        rcases h' with rfl | h'
        · exact ⟨[], (sweepLoop c s N L (doSweep c s N sw st).1).2, st, by simp, hdn⟩
        · obtain ⟨pre, post, st1, heq, h1⟩ :=
            ih _ (dnInv_doSweep c s N sw0 st hdn) sw h'
          refine ⟨(doSweep c s N sw0 st).2 ++ pre, post, st1, ?_, h1⟩
          show (doSweep c s N sw0 st).2 ++ (sweepLoop c s N L (doSweep c s N sw0 st).1).2 = _
          rw [heq]
          simp [List.append_assoc]

theorem doSweep_psiW (c : Collab) (s : Sweeps) (N sw : Nat) (st : WSt) :
    (doSweep c s N sw st).1.psiW = (sweepPreamble s sw st).1.psiW :=
  bondLoop_psiW c sw (serpentine N) _

theorem doSweep_phW (c : Collab) (s : Sweeps) (N sw : Nat) (st : WSt) :
    (doSweep c s N sw st).1.phW = (sweepPreamble s sw st).1.phW :=
  bondLoop_phW c sw (serpentine N) _

theorem sweepPreamble_true (s : Sweeps) (sw : Nat) (st : WSt)
    (h : writeCond s sw st.phW (addSweepOpts s sw st.opts) = true) :
    (sweepPreamble s sw st).2 = [Event.psiDoWrite true, Event.phDoWrite true] ∧
      (sweepPreamble s sw st).1.psiW = true ∧ (sweepPreamble s sw st).1.phW = true := by
  simp [sweepPreamble, h]

theorem sweepPreamble_false (s : Sweeps) (sw : Nat) (st : WSt)
    (h : writeCond s sw st.phW (addSweepOpts s sw st.opts) = false) :
    (sweepPreamble s sw st).2 = [] ∧
      (sweepPreamble s sw st).1.psiW = st.psiW ∧
      (sweepPreamble s sw st).1.phW = st.phW := by
  simp [sweepPreamble, h]

theorem noDoWrite_bondLoop (c : Collab) (sw : Nat) (L : List (Nat × Nat)) (st : WSt)
    (v : Bool) :
    Event.psiDoWrite v ∉ (bondLoop c sw L st).2 ∧
      Event.phDoWrite v ∉ (bondLoop c sw L st).2 := by
  constructor <;> intro h <;> have := bondLoop_shape c sw L st _ h <;>
    simp [bondEventB] at this

theorem executedList_range_one (c : Collab) (n : Nat) (hn : 1 ≤ n)
    (hd : c.done 1 = true) : executedList c (List.range' 1 n) = [1] := by
  obtain ⟨m, rfl⟩ : ∃ m, n = m + 1 := ⟨n - 1, by omega⟩
  have h1 : List.range' 1 (m + 1) = 1 :: List.range' 2 m := rfl
  rw [h1]
  simp [executedList, hd]

theorem runTrace_eq (N : Nat) (s : Sweeps) (c : Collab) (o0 : OptSet) (p0 q0 : Bool) :
    runTrace N s c o0 p0 q0 = Event.psiPosition 1 ::
      ((sweepLoop c s N (List.range' 1 s.nsweep) ⟨initOpts o0, none, p0, q0⟩).2 ++
        [Event.normalizeCall]) := rfl

/-- A small concrete schedule used to exercise the worker. -/
def cfgSweeps : Sweeps := ⟨2, fun _ => 0, fun _ => 1, fun _ => 5, fun _ => 0, fun _ => 2⟩

/-- Concrete collaborator oracles whose observer never reports convergence. -/
def cfgCollab : Collab := ⟨fun _ _ _ => 0, fun _ _ _ => 1, fun _ => false⟩

/-- Concrete collaborator oracles whose observer reports convergence
after every sweep (in particular after sweep 1). -/
def cfgCollabDone : Collab := ⟨fun _ _ _ => 0, fun _ _ _ => 1, fun _ => true⟩

/-- A caller option set that enables the disk-paging threshold at rank 1. -/
def cfgOptsWrite : OptSet := [("WriteM", OptVal.intV 1)]

/-- A concrete schedule with zero sweeps. -/
def cfgSweepsZero : Sweeps := ⟨0, fun _ => 0, fun _ => 1, fun _ => 5, fun _ => 0, fun _ => 2⟩

/-- C1: every run of `DMRGWorker`, whether it stops because the observer
reported convergence or because the sweep schedule was exhausted, invokes
`psi.normalize()` exactly once, as the final collaborator call before
returning. -/
theorem C1_normalize_on_every_exit (N : Nat) (s : Sweeps) (c : Collab)
    (o0 : OptSet) (p0 q0 : Bool) :
    ∃ tr, runTrace N s c o0 p0 q0 = tr ++ [Event.normalizeCall] ∧
      Event.normalizeCall ∉ tr := by
  refine ⟨Event.psiPosition 1 :: (sweepLoop c s N (List.range' 1 s.nsweep)
    ⟨initOpts o0, none, p0, q0⟩).2, ?_, ?_⟩
  · rw [runTrace_eq]
    simp
  · intro h
    rcases List.mem_cons.mp h with h | h
    · exact Event.noConfusion h
    · rcases sweepLoop_shape c s N _ _ _ h with h | ⟨o, r, h⟩ | h | h
      · simp [bondEventB] at h
      · exact Event.noConfusion h
      · exact Event.noConfusion h
      · exact Event.noConfusion h

/-- C2: a run first positions the canonical center at site 1, and the
(bond, half-sweep) coordinates of its bond commits are exactly
`executedSweeps` repetitions of the serpentine order: forward through
bonds `1..N-1` as half-sweep 1, then backward through `N-1..1` as
half-sweep 2, with nothing out of order. -/
theorem C2_serpentine_order (N : Nat) (s : Sweeps) (c : Collab)
    (o0 : OptSet) (p0 q0 : Bool) :
    (runTrace N s c o0 p0 q0).head? = some (Event.psiPosition 1) ∧
      bondVisits (runTrace N s c o0 p0 q0) =
        List.flatten (List.replicate (executedSweeps s c) (serpentine N)) := by
  constructor
  · rw [runTrace_eq]
    rfl
  · rw [runTrace_eq]
    have h0 : bondVisits (Event.psiPosition 1 ::
        ((sweepLoop c s N (List.range' 1 s.nsweep) ⟨initOpts o0, none, p0, q0⟩).2 ++
          [Event.normalizeCall])) =
        bondVisits ((sweepLoop c s N (List.range' 1 s.nsweep)
          ⟨initOpts o0, none, p0, q0⟩).2 ++ [Event.normalizeCall]) := rfl
    have h1 : bondVisits [Event.normalizeCall] = [] := rfl
    rw [h0, bondVisits_append, bondVisits_sweepLoop, h1, List.append_nil]
    rfl

/-- C3: at every bond `(b, ha)` of every executed sweep `sw`, the run
performs, contiguously and in this order: `PH.position(b, psi)`, the
two-site contraction `psi.A(b)*psi.A(b+1)`, the `davidson` call, the
`psi.svdBond` commit with direction `Fromleft` on half-sweep 1 and
`Fromright` on half-sweep 2, and the `obs.measure` report; the option
set `o` handed to the eigensolver and to the commit carries the
schedule's per-sweep `MaxIter`, `Cutoff`, `Minm`, `Maxm` and `Noise`. -/
theorem C3_bond_step_sequence (N : Nat) (s : Sweeps) (c : Collab)
    (o0 : OptSet) (p0 q0 : Bool) (sw b ha : Nat)
    (hsw : sw ∈ executedList c (List.range' 1 s.nsweep))
    (hbh : (b, ha) ∈ serpentine N) :
    ∃ pre post o,
      runTrace N s c o0 p0 q0 = pre ++
        [Event.phPosition b, Event.contractAA b, Event.davidsonCall b o,
         Event.svdBondCall b (if ha = 1 then Direction.Fromleft else Direction.Fromright)
           o (c.truncR sw ha b),
         Event.measureCall (optAdd (optAdd (optAdd o "AtBond" (OptVal.intV b))
           "HalfSweep" (OptVal.intV ha)) "Energy" (OptVal.ratV (c.dav sw ha b)))] ++ post ∧
      optLookup o "MaxIter" = some (OptVal.intV (s.niter sw)) ∧
      optLookup o "Cutoff" = some (OptVal.ratV (s.cutoff sw)) ∧
      optLookup o "Minm" = some (OptVal.intV (s.minm sw)) ∧
      optLookup o "Maxm" = some (OptVal.intV (s.maxm sw)) ∧
      optLookup o "Noise" = some (OptVal.ratV (s.noise sw)) ∧
      optLookup o "Sweep" = some (OptVal.intV sw) := by
  obtain ⟨pre1, post1, st1, heq1, hdn1⟩ :=
    sweepLoop_decomp c s N (List.range' 1 s.nsweep) ⟨initOpts o0, none, p0, q0⟩
      (dnInv_initOpts o0) sw hsw
  have hsched : schedInv s sw (sweepPreamble s sw st1).1.opts := by
    rw [sweepPreamble_opts]
    exact schedInv_addSweepOpts s sw st1.opts
  obtain ⟨pre2, post2, o, heq2, hso⟩ :=
    bondLoop_decomp s c sw (serpentine N) (sweepPreamble s sw st1).1 hsched b ha hbh
  obtain ⟨s1, s2, s3, s4, s5, s6⟩ := hso
  refine ⟨Event.psiPosition 1 :: (pre1 ++ ((sweepPreamble s sw st1).2 ++ pre2)),
    post2 ++
      [Event.checkDoneCall (bondLoop c sw (serpentine N)
        (sweepPreamble s sw st1).1).1.opts (c.done sw)] ++
      post1 ++ [Event.normalizeCall], o, ?_, s6, s2, s3, s4, s5, s1⟩
  rw [runTrace_eq, heq1, doSweep_trace, heq2]
  show _ = Event.psiPosition 1 :: (pre1 ++ ((sweepPreamble s sw st1).2 ++ pre2)) ++
    bondEvents c sw b ha o ++ _
  simp [List.append_assoc]

theorem C3_bond_step_sequence_witness :
    (1 ∈ executedList cfgCollab (List.range' 1 cfgSweeps.nsweep) ∧
      ((1, 1) : Nat × Nat) ∈ serpentine 2) ∧
    (∃ pre post o,
      runTrace 2 cfgSweeps cfgCollab [] false false = pre ++
        [Event.phPosition 1, Event.contractAA 1, Event.davidsonCall 1 o,
         Event.svdBondCall 1 (if 1 = 1 then Direction.Fromleft else Direction.Fromright)
           o (cfgCollab.truncR 1 1 1),
         Event.measureCall (optAdd (optAdd (optAdd o "AtBond" (OptVal.intV 1))
           "HalfSweep" (OptVal.intV 1)) "Energy" (OptVal.ratV (cfgCollab.dav 1 1 1)))] ++
        post ∧
      optLookup o "MaxIter" = some (OptVal.intV (cfgSweeps.niter 1)) ∧
      optLookup o "Cutoff" = some (OptVal.ratV (cfgSweeps.cutoff 1)) ∧
      optLookup o "Minm" = some (OptVal.intV (cfgSweeps.minm 1)) ∧
      optLookup o "Maxm" = some (OptVal.intV (cfgSweeps.maxm 1)) ∧
      optLookup o "Noise" = some (OptVal.ratV (cfgSweeps.noise 1)) ∧
      optLookup o "Sweep" = some (OptVal.intV 1)) :=
  ⟨⟨by decide, by decide⟩,
    C3_bond_step_sequence 2 cfgSweeps cfgCollab [] false false 1 1 1
      (by decide) (by decide)⟩

/-- C4: the interleaving of bond commits and observer queries of a run
is `executedSweeps` repetitions of "all serpentine bond commits of the
sweep, then exactly one `obs.checkDone` query"; so `checkDone` is
queried exactly once per full sweep, after both half-sweeps.  Moreover
when the observer reports convergence after sweep 1 (and the schedule
has at least one sweep), exactly one full sweep runs, with `2*(N-1)`
bond commits. -/
theorem C4_checkdone_once_per_sweep (N : Nat) (s : Sweeps) (c : Collab)
    (o0 : OptSet) (p0 q0 : Bool) :
    svdCheckSeq (runTrace N s c o0 p0 q0) =
      List.flatten (List.replicate (executedSweeps s c)
        ((serpentine N).map some ++ [none])) ∧
    countCheckDone (runTrace N s c o0 p0 q0) = executedSweeps s c ∧
    (1 ≤ s.nsweep → c.done 1 = true →
      executedSweeps s c = 1 ∧
        countSvd (runTrace N s c o0 p0 q0) = 2 * (N - 1)) := by
  have hsvd : countSvd (runTrace N s c o0 p0 q0) =
      executedSweeps s c * (2 * (N - 1)) := by
    rw [runTrace_eq]
    have h0 : countSvd (Event.psiPosition 1 ::
        ((sweepLoop c s N (List.range' 1 s.nsweep) ⟨initOpts o0, none, p0, q0⟩).2 ++
          [Event.normalizeCall])) =
        countSvd ((sweepLoop c s N (List.range' 1 s.nsweep)
          ⟨initOpts o0, none, p0, q0⟩).2 ++ [Event.normalizeCall]) := rfl
    have h1 : countSvd [Event.normalizeCall] = 0 := rfl
    rw [h0, countSvd_append, h1, countSvd_sweepLoop]
    rfl
  refine ⟨?_, ?_, ?_⟩
  · rw [runTrace_eq]
    have h0 : svdCheckSeq (Event.psiPosition 1 ::
        ((sweepLoop c s N (List.range' 1 s.nsweep) ⟨initOpts o0, none, p0, q0⟩).2 ++
          [Event.normalizeCall])) =
        svdCheckSeq ((sweepLoop c s N (List.range' 1 s.nsweep)
          ⟨initOpts o0, none, p0, q0⟩).2 ++ [Event.normalizeCall]) := rfl
    have h1 : svdCheckSeq [Event.normalizeCall] = [] := rfl
    rw [h0, svdCheckSeq_append, h1, List.append_nil, svdCheckSeq_sweepLoop]
    rfl
  · rw [runTrace_eq]
    have h0 : countCheckDone (Event.psiPosition 1 ::
        ((sweepLoop c s N (List.range' 1 s.nsweep) ⟨initOpts o0, none, p0, q0⟩).2 ++
          [Event.normalizeCall])) =
        countCheckDone ((sweepLoop c s N (List.range' 1 s.nsweep)
          ⟨initOpts o0, none, p0, q0⟩).2 ++ [Event.normalizeCall]) := rfl
    have h1 : countCheckDone [Event.normalizeCall] = 0 := rfl
    rw [h0, countCheckDone_append, h1, countCheckDone_sweepLoop]
    rfl
  · intro hn hd
    have he : executedSweeps s c = 1 := by
      rw [executedSweeps, executedList_range_one c s.nsweep hn hd]
      rfl
    exact ⟨he, by rw [hsvd, he, Nat.one_mul]⟩

theorem C4_checkdone_once_per_sweep_witness :
    (1 ≤ cfgSweeps.nsweep ∧ cfgCollabDone.done 1 = true) ∧
    (executedSweeps cfgSweeps cfgCollabDone = 1 ∧
      countSvd (runTrace 3 cfgSweeps cfgCollabDone [] false false) = 2 * (3 - 1)) :=
  ⟨⟨by decide, by decide⟩,
    (C4_checkdone_once_per_sweep 3 cfgSweeps cfgCollabDone [] false false).2.2
      (by decide) (by decide)⟩

/-- C5 counterexample: with a zero-sweep schedule, `DMRGWorker` performs
no validation and does not abort.  The run completes normally: it calls
`psi.position(1)` and `psi.normalize()` and returns the initial `NAN`
energy, refuting the claim that a zero-sweep schedule is detected as a
fatal configuration error that makes the worker fail rather than
complete normally. -/
theorem C5_zero_sweep_counterexample :
    cfgSweepsZero.nsweep = 0 ∧
    runTrace 4 cfgSweepsZero cfgCollab [] false false =
      [Event.psiPosition 1, Event.normalizeCall] ∧
    runEnergy 4 cfgSweepsZero cfgCollab [] false false = none := by decide

/-- C5 amended: a schedule with zero sweeps is not detected as an error;
`DMRGWorker` completes normally, performing no sweeps, positioning the
canonical center at site 1, normalizing the chain, and returning the
initial `NAN` energy. -/
theorem C5_zero_sweep_no_error (N : Nat) (s : Sweeps) (c : Collab)
    (o0 : OptSet) (p0 q0 : Bool) (h : s.nsweep = 0) :
    runTrace N s c o0 p0 q0 = [Event.psiPosition 1, Event.normalizeCall] ∧
      runEnergy N s c o0 p0 q0 = none := by
  constructor
  · rw [runTrace_eq, h]
    rfl
  · show (DMRGWorker N s c o0 p0 q0).1.energy = none
    rw [DMRGWorker_eq, h]
    rfl

theorem C5_zero_sweep_no_error_witness :
    cfgSweepsZero.nsweep = 0 ∧
    (runTrace 3 cfgSweepsZero cfgCollabDone [] false false =
        [Event.psiPosition 1, Event.normalizeCall] ∧
      runEnergy 3 cfgSweepsZero cfgCollabDone [] false false = none) :=
  ⟨by decide, C5_zero_sweep_no_error 3 cfgSweepsZero cfgCollabDone [] false false rfl⟩

/-- C8: with a zero-sweep schedule the worker performs no bond update,
never calls the eigensolver or the observer, still positions the
canonical center at site 1 and normalizes the chain, and returns the
initial `NAN` energy. -/
theorem C8_zero_sweep_behavior (N : Nat) (s : Sweeps) (c : Collab)
    (o0 : OptSet) (p0 q0 : Bool) (h : s.nsweep = 0) :
    runTrace N s c o0 p0 q0 = [Event.psiPosition 1, Event.normalizeCall] ∧
    runEnergy N s c o0 p0 q0 = none ∧
    countSvd (runTrace N s c o0 p0 q0) = 0 ∧
    (∀ b o, Event.davidsonCall b o ∉ runTrace N s c o0 p0 q0) ∧
    (∀ o, Event.measureCall o ∉ runTrace N s c o0 p0 q0) ∧
    (∀ o r, Event.checkDoneCall o r ∉ runTrace N s c o0 p0 q0) := by
  have ht : runTrace N s c o0 p0 q0 = [Event.psiPosition 1, Event.normalizeCall] := by
    rw [runTrace_eq, h]
    rfl
  have he : runEnergy N s c o0 p0 q0 = none := by
    show (DMRGWorker N s c o0 p0 q0).1.energy = none
    rw [DMRGWorker_eq, h]
    rfl
  refine ⟨ht, he, by rw [ht]; rfl, ?_, ?_, ?_⟩ <;> intros <;> rw [ht] <;> simp

/-- A concrete one-sweep schedule. -/
def cfgSweepsOne : Sweeps := ⟨1, fun _ => 0, fun _ => 1, fun _ => 5, fun _ => 0, fun _ => 2⟩

/-- Concrete collaborator oracles whose bond commits produce the
truncation statistic 355, a value distinct from every scalar the worker
ever places into the option set of this run. -/
def cfgCollabT : Collab := ⟨fun _ _ _ => 0, fun _ _ _ => 355, fun _ => true⟩

/-- The option set in force during sweep 1 of the run of
`cfgSweepsOne`/`cfgCollabT` on an empty caller option set. -/
def c6sched : OptSet :=
  [("MaxIter", OptVal.intV 2), ("Noise", OptVal.ratV 0), ("Maxm", OptVal.intV 5),
   ("Minm", OptVal.intV 1), ("Cutoff", OptVal.ratV 0), ("Sweep", OptVal.intV 1),
   ("DoNormalize", OptVal.boolV true), ("DebugLevel", OptVal.intV 1)]

/-- The context handed to `obs.measure` after the first bond commit of
that run. -/
def c6ctx : OptSet :=
  ("Energy", OptVal.ratV 0) :: ("HalfSweep", OptVal.intV 1) ::
    ("AtBond", OptVal.intV 1) :: c6sched

/-- C6 counterexample: in a concrete run, the first bond commit produces
the truncation statistic 355, yet the context handed to the immediately
following `obs.measure` call contains no entry with that value: the
measure context does not carry the truncation statistics of the
just-committed bond (the C++ code only prints `psi.spectrum(b)`; it
never adds it to `opts`). -/
theorem C6_measure_context_counterexample :
    (runTrace 2 cfgSweepsOne cfgCollabT [] false false).take 6 =
      [Event.psiPosition 1, Event.phPosition 1, Event.contractAA 1,
       Event.davidsonCall 1 c6sched,
       Event.svdBondCall 1 Direction.Fromleft c6sched 355,
       Event.measureCall c6ctx] ∧
    (∀ kv ∈ c6ctx, kv.2 ≠ OptVal.ratV 355) := by decide

/-- C6 amended: the context handed to every `obs.measure` call carries
the sweep number, the bond index, the half-sweep, the energy the
eigensolver just produced, and the schedule parameters of that sweep —
but not the truncation statistics of the just-committed bond, which the
observer must read from the chain itself. -/
theorem C6_measure_context_contents (N : Nat) (s : Sweeps) (c : Collab)
    (o0 : OptSet) (p0 q0 : Bool) (ctx : OptSet)
    (h : Event.measureCall ctx ∈ runTrace N s c o0 p0 q0) :
    measureCtxOk s c ctx := by
  rw [runTrace_eq] at h
  rcases List.mem_cons.mp h with h | h
  · exact Event.noConfusion h
  · rcases List.mem_append.mp h with h | h
    · exact measureCtx_sweepLoop s c N _ _ ctx h
    · simp only [List.mem_cons, List.not_mem_nil, or_false] at h
      exact Event.noConfusion h

theorem C6_measure_context_contents_witness :
    (Event.measureCall c6ctx ∈ runTrace 2 cfgSweepsOne cfgCollabT [] false false) ∧
      measureCtxOk cfgSweepsOne cfgCollabT c6ctx :=
  ⟨by decide,
    C6_measure_context_contents 2 cfgSweepsOne cfgCollabT [] false false c6ctx (by decide)⟩

theorem optLookup_addSweepOpts_writeM (s : Sweeps) (sw : Nat) (o : OptSet) :
    optLookup (addSweepOpts s sw o) "WriteM" = optLookup o "WriteM" := by
  simp [addSweepOpts, optAdd, optLookup]

theorem optDefined_addSweepOpts_writeM (s : Sweeps) (sw : Nat) (o : OptSet) :
    optDefined (addSweepOpts s sw o) "WriteM" = optDefined o "WriteM" := by
  rw [optDefined, optDefined, optLookup_addSweepOpts_writeM]

theorem optGetInt_addSweepOpts_writeM (s : Sweeps) (sw : Nat) (o : OptSet) :
    optGetInt (addSweepOpts s sw o) "WriteM" 0 = optGetInt o "WriteM" 0 := by
  rw [optGetInt, optGetInt, optLookup_addSweepOpts_writeM]

/-- C7: at the start of a sweep `sw`, disk paging is switched on for both
the chain and the effective operator — the two `doWrite(true)` calls are
the first events of the sweep — precisely when the switch condition
holds: the effective operator is not already paging, `WriteM` is defined
in the options, and the schedule's `maxm(sw)` is at least the `WriteM`
value.  Otherwise the preamble emits no paging call and both paging
flags are left unchanged. -/
theorem C7_write_switch (c : Collab) (s : Sweeps) (N sw : Nat) (st : WSt) :
    (writeCond s sw st.phW (addSweepOpts s sw st.opts) = true ↔
      (st.phW = false ∧ optDefined st.opts "WriteM" = true ∧
        optGetInt st.opts "WriteM" 0 ≤ s.maxm sw)) ∧
    (writeCond s sw st.phW (addSweepOpts s sw st.opts) = true →
      ∃ rest, (doSweep c s N sw st).2 =
        Event.psiDoWrite true :: Event.phDoWrite true :: rest ∧
        (∀ v, Event.psiDoWrite v ∉ rest ∧ Event.phDoWrite v ∉ rest) ∧
        (doSweep c s N sw st).1.psiW = true ∧ (doSweep c s N sw st).1.phW = true) ∧
    (writeCond s sw st.phW (addSweepOpts s sw st.opts) = false →
      (∀ v, Event.psiDoWrite v ∉ (doSweep c s N sw st).2 ∧
        Event.phDoWrite v ∉ (doSweep c s N sw st).2) ∧
      (doSweep c s N sw st).1.psiW = st.psiW ∧
        (doSweep c s N sw st).1.phW = st.phW) := by
  refine ⟨?_, ?_, ?_⟩
  · rw [writeCond, optDefined_addSweepOpts_writeM, optGetInt_addSweepOpts_writeM]
    simp [Bool.and_eq_true, Bool.not_eq_true', decide_eq_true_eq, and_assoc]
  · intro h
    obtain ⟨hev, hps, hph⟩ := sweepPreamble_true s sw st h
    refine ⟨(bondLoop c sw (serpentine N) (sweepPreamble s sw st).1).2 ++
      [Event.checkDoneCall (bondLoop c sw (serpentine N)
        (sweepPreamble s sw st).1).1.opts (c.done sw)], ?_, ?_, ?_, ?_⟩
    · rw [doSweep_trace, hev]
      simp
    · intro v
      constructor <;> intro hm <;> rcases List.mem_append.mp hm with hm | hm
      · exact (noDoWrite_bondLoop c sw (serpentine N) _ v).1 hm
      · simp only [List.mem_cons, List.not_mem_nil, or_false] at hm
        exact Event.noConfusion hm
      · exact (noDoWrite_bondLoop c sw (serpentine N) _ v).2 hm
      · simp only [List.mem_cons, List.not_mem_nil, or_false] at hm
        exact Event.noConfusion hm
    · rw [doSweep_psiW, hps]
    · rw [doSweep_phW, hph]
  · intro h
    obtain ⟨hev, hps, hph⟩ := sweepPreamble_false s sw st h
    refine ⟨?_, ?_, ?_⟩
    · intro v
      constructor <;> intro hm <;> rw [doSweep_trace, hev, List.nil_append] at hm <;>
        rcases List.mem_append.mp hm with hm | hm
      · exact (noDoWrite_bondLoop c sw (serpentine N) _ v).1 hm
      · simp only [List.mem_cons, List.not_mem_nil, or_false] at hm
        exact Event.noConfusion hm
      · exact (noDoWrite_bondLoop c sw (serpentine N) _ v).2 hm
      · simp only [List.mem_cons, List.not_mem_nil, or_false] at hm
        exact Event.noConfusion hm
    · rw [doSweep_psiW, hps]
    · rw [doSweep_phW, hph]

theorem C7_write_switch_witness :
    (writeCond cfgSweeps 1 (⟨cfgOptsWrite, none, false, false⟩ : WSt).phW
        (addSweepOpts cfgSweeps 1 (⟨cfgOptsWrite, none, false, false⟩ : WSt).opts) = true) ∧
    (∃ rest, (doSweep cfgCollab cfgSweeps 2 1 ⟨cfgOptsWrite, none, false, false⟩).2 =
        Event.psiDoWrite true :: Event.phDoWrite true :: rest ∧
        (∀ v, Event.psiDoWrite v ∉ rest ∧ Event.phDoWrite v ∉ rest) ∧
        (doSweep cfgCollab cfgSweeps 2 1 ⟨cfgOptsWrite, none, false, false⟩).1.psiW = true ∧
        (doSweep cfgCollab cfgSweeps 2 1 ⟨cfgOptsWrite, none, false, false⟩).1.phW = true) :=
  ⟨by decide,
    (C7_write_switch cfgCollab cfgSweeps 2 1 ⟨cfgOptsWrite, none, false, false⟩).2.1
      (by decide)⟩

/-- C9: the option set handed to every `psi.svdBond` commit of every run
maps `DoNormalize` to `true`, whatever the caller put into the option
set: line 205 of dmrg.h overrides any caller-supplied value for the
whole run. -/
theorem C9_donormalize_forced (N : Nat) (s : Sweeps) (c : Collab) (o0 : OptSet)
    (p0 q0 : Bool) (b : Nat) (d : Direction) (o : OptSet) (r : ℚ)
    (h : Event.svdBondCall b d o r ∈ runTrace N s c o0 p0 q0) :
    optLookup o "DoNormalize" = some (OptVal.boolV true) := by
  rw [runTrace_eq] at h
  rcases List.mem_cons.mp h with h | h
  · exact Event.noConfusion h
  · rcases List.mem_append.mp h with h | h
    · exact svdOpts_sweepLoop c s N _ _ (dnInv_initOpts o0) b d o r h
    · simp only [List.mem_cons, List.not_mem_nil, or_false] at h
      exact Event.noConfusion h

theorem C9_donormalize_forced_witness :
    (Event.svdBondCall 1 Direction.Fromleft c6sched 355 ∈
      runTrace 2 cfgSweepsOne cfgCollabT [] false false) ∧
    optLookup c6sched "DoNormalize" = some (OptVal.boolV true) :=
  ⟨by decide,
    C9_donormalize_forced 2 cfgSweepsOne cfgCollabT [] false false 1
      Direction.Fromleft c6sched 355 (by decide)⟩

/-- C10: paging is one-way within a run: every `doWrite` call the worker
ever makes — on the chain or on the effective operator — passes `true`;
`doWrite(false)` is never invoked, so once paging is on it stays on for
the rest of the run. -/
theorem C10_dowrite_one_way (N : Nat) (s : Sweeps) (c : Collab) (o0 : OptSet)
    (p0 q0 : Bool) (v : Bool) :
    (Event.psiDoWrite v ∈ runTrace N s c o0 p0 q0 → v = true) ∧
    (Event.phDoWrite v ∈ runTrace N s c o0 p0 q0 → v = true) := by
  constructor
  · intro h
    rw [runTrace_eq] at h
    rcases List.mem_cons.mp h with h | h
    · exact Event.noConfusion h
    · rcases List.mem_append.mp h with h | h
      · rcases sweepLoop_shape c s N _ _ _ h with hs | ⟨o, r, hs⟩ | hs | hs
        · simp [bondEventB] at hs
        · exact Event.noConfusion hs
        · injection hs
        · exact Event.noConfusion hs
      · simp only [List.mem_cons, List.not_mem_nil, or_false] at h
        exact Event.noConfusion h
  · intro h
    rw [runTrace_eq] at h
    rcases List.mem_cons.mp h with h | h
    · exact Event.noConfusion h
    · rcases List.mem_append.mp h with h | h
      · rcases sweepLoop_shape c s N _ _ _ h with hs | ⟨o, r, hs⟩ | hs | hs
        · simp [bondEventB] at hs
        · exact Event.noConfusion hs
        · exact Event.noConfusion hs
        · injection hs
      · simp only [List.mem_cons, List.not_mem_nil, or_false] at h
        exact Event.noConfusion h

theorem C10_dowrite_one_way_witness :
    (Event.psiDoWrite true ∈ runTrace 2 cfgSweeps cfgCollab cfgOptsWrite false false) ∧
      true = true :=
  ⟨by decide,
    (C10_dowrite_one_way 2 cfgSweeps cfgCollab cfgOptsWrite false false true).1
      (by decide)⟩

theorem C1_normalize_on_every_exit_witness :
    ∃ tr, runTrace 2 cfgSweepsOne cfgCollab [] false false =
        tr ++ [Event.normalizeCall] ∧ Event.normalizeCall ∉ tr :=
  C1_normalize_on_every_exit 2 cfgSweepsOne cfgCollab [] false false

theorem C2_serpentine_order_witness :
    (runTrace 3 cfgSweeps cfgCollab [] false false).head? =
        some (Event.psiPosition 1) ∧
      bondVisits (runTrace 3 cfgSweeps cfgCollab [] false false) =
        List.flatten (List.replicate (executedSweeps cfgSweeps cfgCollab) (serpentine 3)) :=
  C2_serpentine_order 3 cfgSweeps cfgCollab [] false false

theorem C8_zero_sweep_behavior_witness :
    cfgSweepsZero.nsweep = 0 ∧
    (runTrace 5 cfgSweepsZero cfgCollab [] false false =
        [Event.psiPosition 1, Event.normalizeCall] ∧
      runEnergy 5 cfgSweepsZero cfgCollab [] false false = none ∧
      countSvd (runTrace 5 cfgSweepsZero cfgCollab [] false false) = 0 ∧
      (∀ b o, Event.davidsonCall b o ∉ runTrace 5 cfgSweepsZero cfgCollab [] false false) ∧
      (∀ o, Event.measureCall o ∉ runTrace 5 cfgSweepsZero cfgCollab [] false false) ∧
      (∀ o r, Event.checkDoneCall o r ∉ runTrace 5 cfgSweepsZero cfgCollab [] false false)) :=
  ⟨rfl, C8_zero_sweep_behavior 5 cfgSweepsZero cfgCollab [] false false rfl⟩
